import Mathlib

/-
Verification of the batch image-transformation engine in
src/image_resizer.py (class ImageResizer).

The engine's own logic (validation, size arithmetic, filter dispatch and
ordering, per-file error absorption, batch bookkeeping, cancellation) is
embedded directly.  The pixel kernels are delegated to the external cv2
library; they are modelled at the level the engine observes them: each cv2
call is a node recording which operation was invoked with which parameters,
together with the exact shape (width, height, channel-count) discipline of
the real library, including the channel-count preconditions that make
cv2.cvtColor raise on a wrongly-shaped input.
-/

namespace ImageResizer

/-- Provenance of pixel data: a decoded source image, or a cv2 kernel
applied to earlier data.  `op1` is a one-input kernel, `op3` a three-input
kernel (cv2.merge of three split channels). -/
inductive Content where
  | src (id : Nat)
  | op1 (op : String) (args : List ℚ) (a : Content)
  | op3 (op : String) (args : List ℚ) (a b c : Content)
deriving DecidableEq, Repr

/-- Errors raised by the modelled cv2 calls (channel-count mismatches). -/
inductive CvErr where
  | badChannels (fn : String)
deriving DecidableEq, Repr

/-- An in-memory decoded raster: numpy array shape plus pixel provenance. -/
structure Image where
  width : Nat
  height : Nat
  channels : Nat
  content : Content
deriving DecidableEq, Repr

/-- cv2.cvtColor for the color codes the source uses.  BGR2GRAY maps 3
channels to 1; GRAY2BGR maps 1 to 3; the HSV and LAB round-trips keep 3.
A wrongly-channelled input raises, as in the real library. -/
def cvtColor (img : Image) (code : String) : Except CvErr Image :=
  let need : Nat := if code = "GRAY2BGR" then 1 else 3
  let outc : Nat := if code = "BGR2GRAY" then 1 else 3
  if img.channels = need then
    .ok ⟨img.width, img.height, outc, .op1 (String.append "cvtColor." code) [] img.content⟩
  else .error (.badChannels (String.append "cvtColor." code))

/-- cv2.GaussianBlur with square kernel extent k (source uses (7,7), sigma 0). -/
def gaussianBlur (img : Image) (k : ℚ) : Image :=
  ⟨img.width, img.height, img.channels, .op1 "GaussianBlur" [k, 0] img.content⟩

/-- cv2.filter2D with an explicit convolution kernel (flattened). -/
def filter2D (img : Image) (kernel : List ℚ) : Image :=
  ⟨img.width, img.height, img.channels, .op1 "filter2D" kernel img.content⟩

/-- cv2.Canny hysteresis edge detector on a single-channel 8-bit image. -/
def canny (img : Image) (lo hi : ℚ) : Except CvErr Image :=
  if img.channels = 1 then
    .ok ⟨img.width, img.height, 1, .op1 "Canny" [lo, hi] img.content⟩
  else .error (.badChannels "Canny")

/-- cv2.split of a 3-channel image into its three single-channel planes. -/
def split3 (img : Image) : Except CvErr (Image × Image × Image) :=
  if img.channels = 3 then
    .ok (⟨img.width, img.height, 1, .op1 "split0" [] img.content⟩,
         ⟨img.width, img.height, 1, .op1 "split1" [] img.content⟩,
         ⟨img.width, img.height, 1, .op1 "split2" [] img.content⟩)
  else .error (.badChannels "split")

/-- cv2.add of a scalar to a single-channel plane (saturating add). -/
def cvAdd (img : Image) (v : ℚ) : Image :=
  ⟨img.width, img.height, img.channels, .op1 "add" [v] img.content⟩

/-- numpy.clip of a plane to the range [lo, hi]. -/
def npClip (img : Image) (lo hi : ℚ) : Image :=
  ⟨img.width, img.height, img.channels, .op1 "clip" [lo, hi] img.content⟩

/-- cv2.merge of three single-channel planes back into a 3-channel image. -/
def merge3 (a b c : Image) : Image :=
  ⟨a.width, a.height, 3, .op3 "merge" [] a.content b.content c.content⟩

/-- CLAHE with the given clip limit on an 8x8 tile grid, applied to a plane. -/
def clahe (img : Image) (clip : ℚ) : Image :=
  ⟨img.width, img.height, img.channels, .op1 "CLAHE" [clip, 8, 8] img.content⟩

/-- cv2.getRotationMatrix2D(center, angle, scale) followed by
cv2.warpAffine(img, matrix, (w, h)): output canvas is (w, h), channels kept. -/
def warpAffine (img : Image) (cx cy : Nat) (angle scale : ℚ) (w h : Nat) : Image :=
  ⟨w, h, img.channels, .op1 "warpAffine" [(cx : ℚ), (cy : ℚ), angle, scale] img.content⟩

/-- cv2.flip along the axis encoded by the integer direction. -/
def cvFlip (img : Image) (direction : ℤ) : Image :=
  ⟨img.width, img.height, img.channels, .op1 "flip" [(direction : ℚ)] img.content⟩

/-- cv2.resize to target (w, h) with LANCZOS4 interpolation. -/
def cvResize (img : Image) (w h : Nat) : Image :=
  ⟨w, h, img.channels, .op1 "resize.LANCZOS4" [] img.content⟩

/-- Keyword parameters handed to a filter entry in the configuration
mapping: the `enabled` flag plus the keyword arguments the individual
filter methods read (`value`, `angle`, `direction`); unused keys are
swallowed by the methods' catch-all keyword parameter. -/
structure FParams where
  enabled : Bool
  value : Option ℚ
  angle : Option ℚ
  direction : Option ℤ
deriving DecidableEq, Repr

/-- Filter parameters with everything defaulted (entry disabled). -/
def FParams.off : FParams := ⟨false, none, none, none⟩

/-- Filter entry that is enabled with all keyword arguments defaulted. -/
def FParams.on : FParams := ⟨true, none, none, none⟩

/-- ImageResizer.apply_grayscale: cvtColor(image, COLOR_BGR2GRAY). -/
def apply_grayscale (img : Image) : Except CvErr Image :=
  cvtColor img "BGR2GRAY"

/-- ImageResizer.apply_blur: GaussianBlur(image, (7, 7), 0). -/
def apply_blur (img : Image) : Except CvErr Image :=
  .ok (gaussianBlur img 7)

/-- ImageResizer.apply_sharpen: filter2D with the fixed unsharp kernel. -/
def apply_sharpen (img : Image) : Except CvErr Image :=
  .ok (filter2D img [-1, -1, -1, -1, 9, -1, -1, -1, -1])

/-- ImageResizer.apply_edge_detect: BGR2GRAY, Canny(100, 200), GRAY2BGR. -/
def apply_edge_detect (img : Image) : Except CvErr Image := do
  let gray ← cvtColor img "BGR2GRAY"
  let edges ← canny gray 100 200
  cvtColor edges "GRAY2BGR"

/-- ImageResizer.apply_brightness: split the HSV conversion, saturating-add
the value (default 30) to V, clip to [0, 255], merge, convert back. -/
def apply_brightness (ps : FParams) (img : Image) : Except CvErr Image := do
  let v := ps.value.getD 30
  let hsv ← cvtColor img "BGR2HSV"
  let t ← split3 hsv
  let vc := npClip (cvAdd t.2.2 v) 0 255
  cvtColor (merge3 t.1 t.2.1 vc) "HSV2BGR"

/-- ImageResizer.apply_contrast: CLAHE with clip limit value (default 1.5)
on the L plane of the LAB conversion, merge, convert back. -/
def apply_contrast (ps : FParams) (img : Image) : Except CvErr Image := do
  let v := ps.value.getD (3/2)
  let lab ← cvtColor img "BGR2LAB"
  let t ← split3 lab
  let l2 := clahe t.1 v
  cvtColor (merge3 l2 t.2.1 t.2.2) "LAB2BGR"

/-- ImageResizer.apply_rotate: rotation matrix about the integer-division
center with angle (default 90) and scale 1, warped onto the same canvas. -/
def apply_rotate (ps : FParams) (img : Image) : Except CvErr Image :=
  let angle := ps.angle.getD 90
  .ok (warpAffine img (img.width / 2) (img.height / 2) angle 1 img.width img.height)

/-- ImageResizer.apply_flip: cv2.flip with direction (default 1). -/
def apply_flip (ps : FParams) (img : Image) : Except CvErr Image :=
  .ok (cvFlip img (ps.direction.getD 1))

/-- The name-keyed dispatch table built inside apply_filters; unknown
filter identifiers are absent and hence skipped. -/
def filterFor : String → Option (FParams → Image → Except CvErr Image)
  | "grayscale" => some fun _ => apply_grayscale
  | "blur" => some fun _ => apply_blur
  | "sharpen" => some fun _ => apply_sharpen
  | "edge_detect" => some fun _ => apply_edge_detect
  | "brightness" => some fun ps => apply_brightness ps
  | "contrast" => some fun ps => apply_contrast ps
  | "rotate" => some fun ps => apply_rotate ps
  | "flip" => some fun ps => apply_flip ps
  | _ => none

/-- ImageResizer.apply_filters: iterate the configuration mapping in its
own (insertion) order; apply an entry when it is enabled, its name is in
the dispatch table, and the stop flag has not been set; a raised cv2 error
propagates out (it is caught by the caller, process_image).  The stop flag
is the value of self.should_stop, constant here since the claims under
study set it (at most) before the run. -/
def apply_filters (stop : Bool) (cfg : List (String × FParams)) (img : Image) :
    Except CvErr Image :=
  match cfg with
  | [] => .ok img
  | (name, ps) :: rest =>
    if ps.enabled then
      match filterFor name with
      | some f =>
        if stop then apply_filters stop rest img
        else
          match f ps img with
          | .ok img2 => apply_filters stop rest img2
          | .error e => .error e
      | none => apply_filters stop rest img
    else apply_filters stop rest img

/-! Size resolution.  calculate_new_size is embedded twice, at two levels
of numeric precision.  `calculate_new_size_fp` performs the arithmetic
under IEEE-754 binary64 rounding (`fl`), which is what Python floats
actually do; every claim about the numeric values the function returns is
settled against it.  `calculate_new_size` idealizes the float arithmetic
as exact rational arithmetic (Python's int() truncation toward zero is
`pyInt`); it is the version the batch driver carries, and only its branch
structure and error behavior — which coincide with the fp version, since
the two differ solely inside the arithmetic of a taken branch — are relied
on by claims. -/

/-- Python int() applied to a float value: truncation toward zero. -/
def pyInt (q : ℚ) : ℤ :=
  if q < 0 then -⌊-q⌋ else ⌊q⌋

/-- Round a rational to the nearest integer, ties going to the even
integer (the rounding used by IEEE-754 binary64 arithmetic). -/
def roundNearestEven (q : ℚ) : ℤ :=
  let n := ⌊q⌋
  let f := q - (n : ℚ)
  if f < 1/2 then n
  else if f > 1/2 then n + 1
  else if n % 2 = 0 then n else n + 1

/-- Round a rational to the nearest IEEE-754 binary64 value: 53
significant bits (unit in the last place 2^(log2 - 52)), round-to-nearest
with ties to even.  Overflow and subnormals are outside the range of the
quantities involved. -/
def fl (q : ℚ) : ℚ :=
  if q = 0 then 0
  else
    let s : ℚ := if q < 0 then -1 else 1
    let a := |q|
    let k := Int.log 2 a
    let scale : ℚ := (2:ℚ) ^ (k - 52)
    s * (roundNearestEven (a / scale) : ℚ) * scale

/-- Binary64 multiplication of two already-representable values. -/
def fmul (a b : ℚ) : ℚ := fl (a * b)

/-- Binary64 division of two already-representable values. -/
def fdiv (a b : ℚ) : ℚ := fl (a / b)

/-- The keyword arguments of calculate_new_size (each defaults to None). -/
structure SizeParams where
  width : Option ℤ
  height : Option ℤ
  percentage : Option ℚ
deriving DecidableEq, Repr

/-- No sizing policy supplied at all. -/
def SizeParams.none3 : SizeParams := ⟨none, none, none⟩

/-- Python truthiness of an Optional[int]: None and 0 are falsy. -/
def truthyInt : Option ℤ → Bool
  | none => false
  | some n => n ≠ 0

/-- Python truthiness of an Optional[float]: None and 0.0 are falsy. -/
def truthyQ : Option ℚ → Bool
  | none => false
  | some q => q ≠ 0

/-- ImageResizer.calculate_new_size with the float arithmetic idealized as
exact rational arithmetic.  Branch structure, truthiness tests, int()
truncation and the final clamp to a minimum of 1 follow the source. -/
def calculate_new_size (original_size : ℤ × ℤ) (sp : SizeParams) :
    Except String (ℤ × ℤ) :=
  let ow := original_size.1
  let oh := original_size.2
  if truthyQ sp.percentage then
    let p := sp.percentage.getD 0
    let nw := pyInt ((ow : ℚ) * p / 100)
    let nh := pyInt ((oh : ℚ) * p / 100)
    .ok (max 1 nw, max 1 nh)
  else if truthyInt sp.width && truthyInt sp.height then
    .ok (max 1 (sp.width.getD 0), max 1 (sp.height.getD 0))
  else if truthyInt sp.width then
    let w := sp.width.getD 0
    let ratio : ℚ := (w : ℚ) / (ow : ℚ)
    .ok (max 1 w, max 1 (pyInt ((oh : ℚ) * ratio)))
  else if truthyInt sp.height then
    let h := sp.height.getD 0
    let ratio : ℚ := (h : ℚ) / (oh : ℚ)
    .ok (max 1 (pyInt ((ow : ℚ) * ratio)), max 1 h)
  else .error "Must specify width, height, or percentage"

/-- ImageResizer.calculate_new_size with every float operation rounded to
binary64, exactly as Python evaluates it: the derived-dimension branches
compute a rounded ratio and then a rounded product before int(). -/
def calculate_new_size_fp (original_size : ℤ × ℤ) (sp : SizeParams) :
    Except String (ℤ × ℤ) :=
  let ow := original_size.1
  let oh := original_size.2
  if truthyQ sp.percentage then
    let p := sp.percentage.getD 0
    let nw := pyInt (fdiv (fmul (ow : ℚ) p) 100)
    let nh := pyInt (fdiv (fmul (oh : ℚ) p) 100)
    .ok (max 1 nw, max 1 nh)
  else if truthyInt sp.width && truthyInt sp.height then
    .ok (max 1 (sp.width.getD 0), max 1 (sp.height.getD 0))
  else if truthyInt sp.width then
    let w := sp.width.getD 0
    let ratio : ℚ := fdiv (w : ℚ) (ow : ℚ)
    .ok (max 1 w, max 1 (pyInt (fmul (oh : ℚ) ratio)))
  else if truthyInt sp.height then
    let h := sp.height.getD 0
    let ratio : ℚ := fdiv (h : ℚ) (oh : ℚ)
    .ok (max 1 (pyInt (fmul (ow : ℚ) ratio)), max 1 h)
  else .error "Must specify width, height, or percentage"

/-! The file system and the batch driver. -/

/-- A candidate input path together with what the file system and codec
say about it: the Path attributes the source reads (name, stem, suffix,
is_file) and the decode outcome — `dims = some (w, h)` when cv2.imread
yields a w x h image (always 3-channel BGR), `none` when it yields None. -/
structure VFile where
  id : Nat
  name : String
  stem : String
  suffix : String
  isFile : Bool
  dims : Option (Nat × Nat)
deriving DecidableEq, Repr

/-- cv2.imread on a candidate file. -/
def imread (f : VFile) : Option Image :=
  f.dims.map fun d => ⟨d.1, d.2, 3, .src f.id⟩

/-- The fixed allow-list self.valid_extensions. -/
def valid_extensions : List String :=
  [".jpg", ".jpeg", ".png", ".bmp", ".tiff", ".webp"]

/-- ASCII lower-casing of one character (what str.lower() does on the
ASCII file-name suffixes involved here). -/
def lowerChar (c : Char) : Char :=
  if c.isUpper then Char.ofNat (c.toNat + 32) else c

/-- ASCII lower-casing of a string, Path.suffix.lower() in the source. -/
def lowerStr (s : String) : String :=
  String.mk (s.data.map lowerChar)

/-- The per-file test of ImageResizer.validate_images: existing regular
file, allow-listed extension (case-insensitive), decodable content; any
decode exception is caught and classifies the file invalid. -/
def isValidImage (f : VFile) : Bool :=
  f.isFile && valid_extensions.contains (lowerStr f.suffix) && (imread f).isSome

/-- ImageResizer.validate_images: one pass over the input list, appending
each file to the valid or the invalid sequence in input order. -/
def validate_images : List VFile → List VFile × List VFile
  | [] => ([], [])
  | f :: rest =>
    let r := validate_images rest
    if isValidImage f then (f :: r.1, r.2) else (r.1, f :: r.2)

/-- What one call of ImageResizer.process_image did: its boolean return
value, whether cv2.imread was invoked on the file, and the output write
(name and buffer) if one happened. -/
structure ProcResult where
  success : Bool
  decoded : Bool
  wrote : Option (String × Image)
deriving DecidableEq, Repr

/-- ImageResizer.process_image.  The stop flag is consulted first (before
any decode); then the file is decoded, the new size resolved, the buffer
resized and filtered, and the result written under prefix + stem + suffix.
Every exception inside the try block — an imread of None short-circuits,
calculate_new_size's ValueError, a cv2 error from a filter — is caught
and turned into the return value False. -/
def process_image (stop : Bool) (f : VFile) (sp : SizeParams)
    (cfg : List (String × FParams)) (pre : String) : ProcResult :=
  if stop then ⟨false, false, none⟩
  else
    match imread f with
    | none => ⟨false, true, none⟩
    | some img =>
      match calculate_new_size ((img.width : ℤ), (img.height : ℤ)) sp with
      | .error _ => ⟨false, true, none⟩
      | .ok (nw, nh) =>
        let resized := cvResize img nw.toNat nh.toNat
        match apply_filters stop cfg resized with
        | .error _ => ⟨false, true, none⟩
        | .ok processed =>
          ⟨true, true, some (String.append pre (String.append f.stem f.suffix), processed)⟩

/-- The per-valid-file loop of ImageResizer.batch_resize: accumulates the
success count, the names of failed files in order, and the writes. -/
def processValid (stop : Bool) (sp : SizeParams) (cfg : List (String × FParams))
    (pre : String) : List VFile → Nat × List String × List (String × Image)
  | [] => (0, [], [])
  | f :: rest =>
    let r := process_image stop f sp cfg pre
    let acc := processValid stop sp cfg pre rest
    (if r.success then acc.1 + 1 else acc.1,
     if r.success then acc.2.1 else f.name :: acc.2.1,
     match r.wrote with
     | some w => w :: acc.2.2
     | none => acc.2.2)

/-- The aggregated result of one batch run: the returned triple
(success_count, total, error_files) plus the output files written. -/
structure BatchResult where
  success : Nat
  total : Nat
  errors : List String
  writes : List (String × Image)
deriving DecidableEq, Repr

/-- ImageResizer.batch_resize: validate all inputs; with no valid file
return (0, 0, invalid names) immediately; otherwise process each valid
file in order, then append the invalid names to the failure list. -/
def batch_resize (stop : Bool) (files : List VFile) (sp : SizeParams)
    (cfg : List (String × FParams)) (pre : String) : BatchResult :=
  let v := validate_images files
  if v.1.isEmpty then ⟨0, 0, v.2.map (fun f => f.name), []⟩
  else
    let r := processValid stop sp cfg pre v.1
    ⟨r.1, v.1.length, r.2.1 ++ v.2.map (fun f => f.name), r.2.2⟩

/-! Concrete instances used by counterexamples and witnesses. -/

/-- A 2x2 3-channel decoded buffer. -/
def imgC1 : Image := ⟨2, 2, 3, .src 1⟩

/-- Configuration enabling grayscale then edge detection, in that insertion
order. -/
def cfgGE : List (String × FParams) :=
  [("grayscale", FParams.on), ("edge_detect", FParams.on)]

/-- The same two filters enabled with the same parameters, opposite
insertion order. -/
def cfgEG : List (String × FParams) :=
  [("edge_detect", FParams.on), ("grayscale", FParams.on)]

/-- A decodable, allow-listed candidate file. -/
def fileC2 : VFile := ⟨0, "a.jpg", "a", ".jpg", true, some (4, 4)⟩

/-- A configuration whose every entry is disabled. -/
def cfgOffC6 : List (String × FParams) :=
  [("grayscale", FParams.off), ("flip", ⟨false, none, none, some (-1)⟩)]

/-- A 5x7 3-channel decoded buffer. -/
def imgC6 : Image := ⟨5, 7, 3, .src 3⟩

/-- A decodable candidate file for the cancellation scenario. -/
def fileC7 : VFile := ⟨4, "photo.png", "photo", ".png", true, some (8, 6)⟩

/-- A 50-percent sizing policy. -/
def spC7 : SizeParams := ⟨none, none, some 50⟩

/-- A 6x4 3-channel decoded buffer. -/
def imgC8 : Image := ⟨6, 4, 3, .src 2⟩

/-- What apply_grayscale returns on imgC8. -/
def grayC8 : Image := ⟨6, 4, 1, .op1 "cvtColor.BGR2GRAY" [] (.src 2)⟩

deriving instance DecidableEq for Except

/-! Helper lemmas (shared across claims). -/

theorem validate_images_eq_filter (files : List VFile) :
    validate_images files =
      (files.filter isValidImage, files.filter fun f => !isValidImage f) := by
  induction files with
  | nil => rfl
  | cons f rest ih =>
    simp only [validate_images, ih, List.filter_cons]
    cases h : isValidImage f <;> simp [h]

theorem validate_images_length (files : List VFile) :
    (validate_images files).1.length + (validate_images files).2.length = files.length := by
  rw [validate_images_eq_filter]
  have hp := (List.filter_append_perm isValidImage files).length_eq
  simpa [List.length_append] using hp

theorem process_image_of_stop (f : VFile) (sp : SizeParams)
    (cfg : List (String × FParams)) (pre : String) :
    process_image true f sp cfg pre = ⟨false, false, none⟩ := rfl

theorem processValid_of_stop (sp : SizeParams) (cfg : List (String × FParams))
    (pre : String) (l : List VFile) :
    processValid true sp cfg pre l = (0, l.map (fun f => f.name), []) := by
  induction l with
  | nil => rfl
  | cons f rest ih => simp [processValid, process_image_of_stop, ih]

theorem process_image_no_policy (f : VFile) (cfg : List (String × FParams)) (pre : String) :
    process_image false f SizeParams.none3 cfg pre = ⟨false, true, none⟩ := by
  unfold process_image
  cases h : imread f with
  | none => simp [h]
  | some img => simp [h, calculate_new_size, truthyInt, truthyQ, SizeParams.none3]

theorem processValid_no_policy (cfg : List (String × FParams)) (pre : String) (l : List VFile) :
    processValid false SizeParams.none3 cfg pre l = (0, l.map (fun f => f.name), []) := by
  induction l with
  | nil => rfl
  | cons f rest ih => simp [processValid, process_image_no_policy, ih]

theorem processValid_count (stop : Bool) (sp : SizeParams) (cfg : List (String × FParams))
    (pre : String) (l : List VFile) :
    (processValid stop sp cfg pre l).1 + (processValid stop sp cfg pre l).2.1.length
      = l.length := by
  induction l with
  | nil => rfl
  | cons f rest ih =>
    cases h : (process_image stop f sp cfg pre).success <;>
      simp [processValid, h] <;> omega

theorem pyInt_eq_floor_of_nonneg (q : ℚ) (h : 0 ≤ q) : pyInt q = ⌊q⌋ := by
  unfold pyInt
  rw [if_neg (not_lt.mpr h)]

theorem Int_log2_eq_of (r : ℚ) (k : ℤ) (h0 : 0 < r) (h1 : (2:ℚ)^k ≤ r)
    (h2 : r < (2:ℚ)^(k+1)) : Int.log 2 r = k := by
  have h1' : ((2:ℕ):ℚ)^k ≤ r := by push_cast; exact h1
  have h2' : r < ((2:ℕ):ℚ)^(k+1) := by push_cast; exact h2
  have hle : k ≤ Int.log 2 r := (Int.zpow_le_iff_le_log one_lt_two h0).mp h1'
  have hlt : Int.log 2 r < k + 1 := (Int.lt_zpow_iff_log_lt one_lt_two h0).mp h2'
  omega

theorem roundNearestEven_eval (q : ℚ) (n : ℤ) (h1 : (n:ℚ) ≤ q) (h2 : q < n + 1)
    (h3 : q - n < 1/2) : roundNearestEven q = n := by
  have hf : ⌊q⌋ = n := Int.floor_eq_iff.mpr ⟨h1, h2⟩
  unfold roundNearestEven
  rw [hf]
  rw [if_pos h3]

theorem roundNearestEven_intCast (z : ℤ) : roundNearestEven (z : ℚ) = z := by
  unfold roundNearestEven
  rw [Int.floor_intCast]
  norm_num

theorem fl_eval (q : ℚ) (k : ℤ) (n : ℤ) (hq : 0 < q)
    (hk1 : (2:ℚ)^k ≤ q) (hk2 : q < (2:ℚ)^(k+1))
    (hn : roundNearestEven (q / (2:ℚ)^(k-52)) = n) :
    fl q = (n : ℚ) * (2:ℚ)^(k-52) := by
  simp only [fl, if_neg hq.ne', if_neg (not_lt.mpr hq.le), abs_of_pos hq]
  rw [Int_log2_eq_of q k hq hk1 hk2, hn]
  ring

theorem fl_natCast (m : ℕ) (h53 : m < 2^53) : fl (m : ℚ) = m := by
  rcases Nat.eq_zero_or_pos m with rfl | hm
  · simp [fl]
  · have h0 : (0:ℚ) < m := by exact_mod_cast hm
    have hklt : Nat.log 2 m < 53 := Nat.log_lt_of_lt_pow hm.ne' h53
    have hk : Int.log 2 ((m:ℚ)) = (Nat.log 2 m : ℤ) := Int.log_natCast 2 m
    set j : ℕ := 52 - Nat.log 2 m with hj
    have hjz : ((Nat.log 2 m : ℤ) - 52) + (j : ℤ) = 0 := by omega
    have hpow : (2:ℚ)^((Nat.log 2 m : ℤ) - 52) * (2:ℚ)^(j:ℤ) = 1 := by
      rw [← zpow_add₀ (two_ne_zero : (2:ℚ) ≠ 0), hjz, zpow_zero]
    have harg : (m:ℚ) / (2:ℚ)^((Nat.log 2 m : ℤ) - 52) = ((m * 2^j : ℕ) : ℚ) := by
      rw [div_eq_iff (by positivity)]
      push_cast
      rw [← zpow_natCast (2:ℚ) j, mul_assoc, mul_comm ((2:ℚ)^(j:ℤ)) _, hpow, mul_one]
    have hrne : roundNearestEven (((m * 2^j : ℕ) : ℚ)) = ((m * 2^j : ℕ) : ℤ) := by
      have h := roundNearestEven_intCast ((m * 2^j : ℕ) : ℤ)
      rwa [Int.cast_natCast] at h
    simp only [fl, if_neg h0.ne', if_neg (not_lt.mpr h0.le), abs_of_pos h0, hk]
    rw [harg, hrne, one_mul]
    push_cast
    rw [← zpow_natCast (2:ℚ) j, mul_assoc, ← zpow_add₀ (two_ne_zero : (2:ℚ) ≠ 0)]
    rw [show (j:ℤ) + ((Nat.log 2 m : ℤ) - 52) = 0 by omega]
    rw [zpow_zero, mul_one]

theorem fdiv_8_49 : fdiv (8:ℚ) 49 = (5882252574524729:ℚ) / 36028797018963968 := by
  unfold fdiv
  have h := fl_eval ((8:ℚ)/49) (-3) 5882252574524729 (by norm_num)
    (by norm_num) (by norm_num)
    (roundNearestEven_eval _ _ (by norm_num) (by norm_num) (by norm_num))
  rw [h]
  norm_num

theorem fmul_49_ratio : fmul (49:ℚ) ((5882252574524729:ℚ) / 36028797018963968)
    = (9007199254740991:ℚ) / 1125899906842624 := by
  unfold fmul
  have h := fl_eval ((49:ℚ) * ((5882252574524729:ℚ) / 36028797018963968)) 2
    9007199254740991 (by norm_num) (by norm_num) (by norm_num)
    (roundNearestEven_eval _ _ (by norm_num) (by norm_num) (by norm_num))
  rw [h]
  norm_num

theorem pyInt_height_49 : pyInt ((9007199254740991:ℚ) / 1125899906842624) = 7 := by
  rw [pyInt_eq_floor_of_nonneg _ (by norm_num)]
  rw [Int.floor_eq_iff]
  constructor <;> norm_num

theorem roundNearestEven_eval_tie_odd (q : ℚ) (n : ℤ) (h1 : (n:ℚ) ≤ q)
    (h2 : q < n + 1) (h3 : q - n = 1/2) (h4 : n % 2 = 1) :
    roundNearestEven q = n + 1 := by
  have hf : ⌊q⌋ = n := Int.floor_eq_iff.mpr ⟨h1, h2⟩
  unfold roundNearestEven
  rw [hf]
  rw [if_neg (show ¬(q - (n:ℚ) < 1/2) by rw [h3]; norm_num)]
  rw [if_neg (show ¬(q - (n:ℚ) > 1/2) by rw [h3]; norm_num)]
  rw [if_neg (show ¬(n % 2 = 0) by omega)]

theorem fmul_3_tie : fmul (3:ℚ) ((5864062014805333:ℚ) / 35184372088832) = 500 := by
  unfold fmul
  have harg : roundNearestEven
      ((3:ℚ) * ((5864062014805333:ℚ) / 35184372088832) / (2:ℚ)^((8:ℤ)-52))
      = 8796093022208000 := by
    have h := roundNearestEven_eval_tie_odd
      ((3:ℚ) * ((5864062014805333:ℚ) / 35184372088832) / (2:ℚ)^((8:ℤ)-52))
      8796093022207999 (by norm_num) (by norm_num) (by norm_num) (by norm_num)
    simpa using h
  have h := fl_eval ((3:ℚ) * ((5864062014805333:ℚ) / 35184372088832)) 8
    8796093022208000 (by norm_num) (by norm_num) (by norm_num) harg
  rw [h]
  norm_num

theorem fdiv_500_100 : fdiv (500:ℚ) 100 = 5 := by
  unfold fdiv
  rw [show (500:ℚ)/100 = ((5:ℕ):ℚ) by norm_num]
  rw [fl_natCast 5 (by norm_num)]
  norm_num

theorem pyInt_five : pyInt (5:ℚ) = 5 := by
  rw [pyInt_eq_floor_of_nonneg _ (by norm_num)]
  rw [show (5:ℚ) = ((5:ℤ):ℚ) by norm_num, Int.floor_intCast]

theorem fp_scaled_int_exact (a n : ℤ) (ha : 1 ≤ a) (hn : 1 ≤ n)
    (hdvd : 100 ∣ a * n) (h53 : a * n < 2^53) :
    pyInt (fdiv (fmul ((a:ℚ)) ((n:ℚ))) 100) = ⌊(a:ℚ) * (n:ℚ) / 100⌋ := by
  have h53' : (2:ℤ)^53 = 9007199254740992 := by norm_num
  have h53n : (2:ℕ)^53 = 9007199254740992 := by norm_num
  rw [h53'] at h53
  have han : 0 ≤ a * n := mul_nonneg (by omega) (by omega)
  set M : ℤ := a * n / 100 with hMdef
  have hM1 : M * 100 = a * n := Int.ediv_mul_cancel hdvd
  have hM0 : 0 ≤ M := Int.ediv_nonneg han (by norm_num)
  have hMle : M ≤ a * n := Int.ediv_le_self _ han
  have hprod_cast : (a:ℚ) * (n:ℚ) = (((a * n).toNat : ℕ) : ℚ) := by
    have h := congrArg (Int.cast : ℤ → ℚ) (Int.toNat_of_nonneg han)
    rw [Int.cast_natCast] at h
    rw [h]
    push_cast
    ring
  have hfm : fmul (a:ℚ) (n:ℚ) = ((a * n : ℤ) : ℚ) := by
    unfold fmul
    rw [hprod_cast, fl_natCast _ (by rw [h53n]; omega), ← hprod_cast]
    push_cast
    ring
  have hdiv_cast : ((a * n : ℤ) : ℚ) / 100 = ((M : ℤ) : ℚ) := by
    rw [div_eq_iff (show (100:ℚ) ≠ 0 by norm_num)]
    exact_mod_cast hM1.symm
  have hMcast : ((M : ℤ) : ℚ) = ((M.toNat : ℕ) : ℚ) := by
    have h := congrArg (Int.cast : ℤ → ℚ) (Int.toNat_of_nonneg hM0)
    rw [Int.cast_natCast] at h
    rw [h]
  have hfd : fdiv ((a * n : ℤ) : ℚ) 100 = ((M : ℤ) : ℚ) := by
    unfold fdiv
    rw [hdiv_cast, hMcast, fl_natCast _ (by rw [h53n]; omega), ← hMcast]
  rw [hfm, hfd, pyInt_eq_floor_of_nonneg _ (by exact_mod_cast hM0), Int.floor_intCast]
  rw [show (a:ℚ) * (n:ℚ) / 100 = ((M : ℤ) : ℚ) from by
    rw [show (a:ℚ) * (n:ℚ) = ((a * n : ℤ) : ℚ) by push_cast; ring, hdiv_cast]]
  rw [Int.floor_intCast]

/-! Claim theorems. -/

/-- C5: validate_images is a stable partition of the input sequence: the
concatenation of the valid and invalid sequences is a permutation of the
input, and each output sequence preserves the input's relative order
(it is a sublist of the input). -/
theorem validate_images_stable_partition (files : List VFile) :
    ((validate_images files).1 ++ (validate_images files).2).Perm files ∧
      ((validate_images files).1).Sublist files ∧
      ((validate_images files).2).Sublist files := by
  rw [validate_images_eq_filter]
  exact ⟨List.filter_append_perm _ _, List.filter_sublist _, List.filter_sublist _⟩

/-- C6: a configuration in which every entry is disabled (absent entries
simply are not iterated) makes apply_filters the identity transform on the
buffer, whatever the cancellation flag is. -/
theorem apply_filters_all_disabled (stop : Bool) (cfg : List (String × FParams))
    (img : Image) (h : ∀ e ∈ cfg, e.2.enabled = false) :
    apply_filters stop cfg img = .ok img := by
  induction cfg with
  | nil => rfl
  | cons e rest ih =>
    have he : e.2.enabled = false := h e (List.mem_cons_self _ _)
    simp only [apply_filters, he]
    exact ih fun x hx => h x (List.mem_cons_of_mem _ hx)

theorem apply_filters_all_disabled_witness :
    (∀ e ∈ cfgOffC6, e.2.enabled = false) ∧
      apply_filters false cfgOffC6 imgC6 = .ok imgC6 :=
  ⟨by decide, apply_filters_all_disabled false cfgOffC6 imgC6 (by decide)⟩

/-- C9: per batch run, success_count plus the number of failed names is
the total number of input files, and the returned total is the number of
files classified valid — every input is accounted for exactly once. -/
theorem batch_resize_accounting (stop : Bool) (files : List VFile) (sp : SizeParams)
    (cfg : List (String × FParams)) (pre : String) :
    (batch_resize stop files sp cfg pre).success
        + (batch_resize stop files sp cfg pre).errors.length = files.length ∧
      (batch_resize stop files sp cfg pre).total = (validate_images files).1.length := by
  have hlen := validate_images_length files
  have hcount := processValid_count stop sp cfg pre (validate_images files).1
  rcases hval : validate_images files with ⟨valid, invalid⟩
  rw [hval] at hlen hcount
  simp only [batch_resize, hval]
  cases valid with
  | nil =>
    constructor
    · simpa using hlen
    · rfl
  | cons a rest =>
    constructor
    · simp only [List.isEmpty_cons, if_false, Bool.false_eq_true,
        List.length_append, List.length_map]
      simp only [List.length_cons] at hcount hlen ⊢
      omega
    · simp

/-- C10: calculate_new_size treats a zero-valued sizing parameter as
absent (Python truthiness): percentage 0 with nothing else raises the
no-policy configuration error, and width 0 with a positive height behaves
exactly as the fixed-height policy. -/
theorem calculate_new_size_zero_falsy (ow oh hgt : ℤ) (hh : 0 < hgt) :
    calculate_new_size (ow, oh) ⟨none, none, some 0⟩ =
        .error "Must specify width, height, or percentage" ∧
      calculate_new_size (ow, oh) ⟨some 0, some hgt, none⟩ =
        calculate_new_size (ow, oh) ⟨none, some hgt, none⟩ := by
  constructor
  · rfl
  · simp [calculate_new_size, truthyInt, truthyQ, hh.ne']

theorem calculate_new_size_zero_falsy_witness :
    (0 : ℤ) < 3 ∧
      (calculate_new_size (10, 5) ⟨none, none, some 0⟩ =
          .error "Must specify width, height, or percentage" ∧
        calculate_new_size (10, 5) ⟨some 0, some 3, none⟩ =
          calculate_new_size (10, 5) ⟨none, some 3, none⟩) :=
  ⟨by norm_num, calculate_new_size_zero_falsy 10 5 3 (by norm_num)⟩

/-- C3 counterexample: at original size 3 x 3 with the percentage
5864062014805333/2^45 (the binary64 float nearest 500/3, the value the
source receives for a 166.66666666666666 percent request), the exact
clamped floor of orig * p / 100 is 4, but the source computes
int(3 * p / 100) through binary64 floats: 3 * p lands exactly half an ulp
below 500 and the tie rounds up to 500.0, so the code returns 5 — the
claimed exact componentwise floor does not hold for every p > 0. -/
theorem calculate_new_size_fp_percentage_cex :
    calculate_new_size_fp (3, 3)
        ⟨none, none, some ((5864062014805333:ℚ) / 35184372088832)⟩ = .ok (5, 5) ∧
      max 1 ⌊(3:ℚ) * ((5864062014805333:ℚ) / 35184372088832) / 100⌋ = 4 := by
  constructor
  · simp only [calculate_new_size_fp, truthyQ, truthyInt, Option.getD]
    norm_num [fmul_3_tie, fdiv_500_100, pyInt_five]
  · norm_num

/-- C3 amended: under the Percentage(p) policy with p > 0 both resolved
components are at least 1, but each is the binary64 evaluation
int(fl(fl(orig * p) / 100)) clamped to a minimum of 1, which can differ
from the exact clamped floor of orig * p / 100 (the counterexample);
when p is integer-valued and 100 divides orig * p with the product below
2^53, the float evaluation is exact and the claimed clamped floor
max(1, floor(orig * p / 100)) is returned for that component. -/
theorem calculate_new_size_fp_percentage (ow oh : ℤ) (p : ℚ)
    (how : 1 ≤ ow) (hoh : 1 ≤ oh) (hp : 0 < p) :
    ∃ nw nh : ℤ,
      calculate_new_size_fp (ow, oh) ⟨none, none, some p⟩ = .ok (nw, nh) ∧
        1 ≤ nw ∧ 1 ≤ nh ∧
        (∀ n : ℤ, p = (n:ℚ) → 100 ∣ ow * n → ow * n < 2^53 →
          nw = max 1 ⌊(ow : ℚ) * p / 100⌋) ∧
        (∀ n : ℤ, p = (n:ℚ) → 100 ∣ oh * n → oh * n < 2^53 →
          nh = max 1 ⌊(oh : ℚ) * p / 100⌋) := by
  refine ⟨max 1 (pyInt (fdiv (fmul ((ow:ℤ):ℚ) p) 100)),
    max 1 (pyInt (fdiv (fmul ((oh:ℤ):ℚ) p) 100)), ?_, le_max_left _ _, le_max_left _ _,
    ?_, ?_⟩
  · have hp0 : p ≠ 0 := hp.ne'
    simp [calculate_new_size_fp, truthyQ, hp0]
  · intro n hpn hdvd h53
    have hn1 : 1 ≤ n := by
      have h0 : (0:ℚ) < (n:ℚ) := hpn ▸ hp
      have h1 : (0:ℤ) < n := by exact_mod_cast h0
      omega
    rw [hpn]
    congr 1
    exact fp_scaled_int_exact ow n how hn1 hdvd h53
  · intro n hpn hdvd h53
    have hn1 : 1 ≤ n := by
      have h0 : (0:ℚ) < (n:ℚ) := hpn ▸ hp
      have h1 : (0:ℤ) < n := by exact_mod_cast h0
      omega
    rw [hpn]
    congr 1
    exact fp_scaled_int_exact oh n hoh hn1 hdvd h53

theorem calculate_new_size_fp_percentage_witness :
    (1:ℤ) ≤ 2 ∧ (1:ℤ) ≤ 50 ∧ (0:ℚ) < 50 ∧
      (∃ nw nh : ℤ,
        calculate_new_size_fp (2, 50) ⟨none, none, some 50⟩ = .ok (nw, nh) ∧
          1 ≤ nw ∧ 1 ≤ nh ∧
          (∀ n : ℤ, (50:ℚ) = (n:ℚ) → 100 ∣ 2 * n → 2 * n < 2^53 →
            nw = max 1 ⌊(2 : ℚ) * 50 / 100⌋) ∧
          (∀ n : ℤ, (50:ℚ) = (n:ℚ) → 100 ∣ 50 * n → 50 * n < 2^53 →
            nh = max 1 ⌊(50 : ℚ) * 50 / 100⌋)) :=
  ⟨by norm_num, by norm_num, by norm_num,
    calculate_new_size_fp_percentage 2 50 50 (by norm_num) (by norm_num) (by norm_num)⟩

/-- C7: when the cancellation flag is set before the run begins, every
valid file is recorded as failed, the success count is zero, and no
output file is written. -/
theorem stop_before_run_all_failed (files : List VFile) (sp : SizeParams)
    (cfg : List (String × FParams)) (pre : String) :
    (batch_resize true files sp cfg pre).success = 0 ∧
      (batch_resize true files sp cfg pre).writes = [] ∧
      ∀ f ∈ (validate_images files).1,
        f.name ∈ (batch_resize true files sp cfg pre).errors := by
  have hpv := processValid_of_stop sp cfg pre (validate_images files).1
  rcases hval : validate_images files with ⟨valid, invalid⟩
  rw [hval] at hpv
  simp only [batch_resize, hval, hpv]
  cases valid with
  | nil => exact ⟨rfl, rfl, by simp⟩
  | cons a rest =>
    refine ⟨rfl, rfl, ?_⟩
    intro f hf
    exact List.mem_append_left _ (List.mem_map_of_mem _ hf)

theorem stop_before_run_all_failed_witness :
    (batch_resize true [fileC7] spC7 [] "").success = 0 ∧
      (batch_resize true [fileC7] spC7 [] "").writes = [] ∧
      ∀ f ∈ (validate_images [fileC7]).1,
        f.name ∈ (batch_resize true [fileC7] spC7 [] "").errors :=
  stop_before_run_all_failed [fileC7] spC7 [] ""

/-- C2 counterexample: with no sizing policy supplied, batch_resize does
not surface the configuration error to the caller — it returns a normal
outcome in which the valid file is absorbed as a per-file failure, and the
file has been decoded (cv2.imread ran) before the error was raised. -/
theorem no_policy_error_not_surfaced_cex :
    batch_resize false [fileC2] SizeParams.none3 [] "" =
        ⟨0, 1, ["a.jpg"], []⟩ ∧
      (process_image false fileC2 SizeParams.none3 [] "").decoded = true :=
  ⟨by decide, by decide⟩

/-- C2 amended: with no sizing policy supplied, the ValueError from
calculate_new_size is raised per file inside process_image's try block and
absorbed: the batch run returns normally with success count 0 and no
output written, every valid file is recorded as failed, and each valid
file is decoded before its failure. -/
theorem no_policy_error_absorbed_per_file (files : List VFile)
    (cfg : List (String × FParams)) (pre : String) :
    (batch_resize false files SizeParams.none3 cfg pre).success = 0 ∧
      (batch_resize false files SizeParams.none3 cfg pre).writes = [] ∧
      ∀ f ∈ (validate_images files).1,
        f.name ∈ (batch_resize false files SizeParams.none3 cfg pre).errors ∧
          (process_image false f SizeParams.none3 cfg pre).decoded = true := by
  have hpv := processValid_no_policy cfg pre (validate_images files).1
  rcases hval : validate_images files with ⟨valid, invalid⟩
  rw [hval] at hpv
  simp only [batch_resize, hval, hpv]
  cases valid with
  | nil => exact ⟨rfl, rfl, by simp⟩
  | cons a rest =>
    refine ⟨rfl, rfl, ?_⟩
    intro f hf
    exact ⟨List.mem_append_left _ (List.mem_map_of_mem _ hf),
      by rw [process_image_no_policy]⟩

theorem no_policy_error_absorbed_per_file_witness :
    (batch_resize false [fileC2] SizeParams.none3 [] "x_").success = 0 ∧
      (batch_resize false [fileC2] SizeParams.none3 [] "x_").writes = [] ∧
      ∀ f ∈ (validate_images [fileC2]).1,
        f.name ∈ (batch_resize false [fileC2] SizeParams.none3 [] "x_").errors ∧
          (process_image false f SizeParams.none3 [] "x_").decoded = true :=
  no_policy_error_absorbed_per_file [fileC2] [] "x_"

/-- C1 counterexample: two configuration mappings that enable exactly the
same filters with the same parameters but in opposite insertion orders
produce different results on the same buffer: grayscale-then-edge-detect
raises inside cv2 (BGR2GRAY on an already single-channel buffer), while
edge-detect-then-grayscale succeeds — so apply_filters does not impose the
canonical grayscale-first order; it follows the mapping's own order. -/
theorem apply_filters_order_dependent_cex :
    cfgGE.Perm cfgEG ∧
      (∀ e ∈ cfgGE, e.2.enabled = true) ∧
      apply_filters false cfgGE imgC1 ≠ apply_filters false cfgEG imgC1 := by
  decide

/-- C1 amended: apply_filters applies the enabled, recognized filters
sequentially in the iteration (insertion) order of the configuration
mapping — splitting the mapping anywhere splits the transform into
sequential composition — and, as the counterexample shows, mappings that
enable the same filters in different insertion orders can produce
different buffers. -/
theorem apply_filters_insertion_order (stop : Bool)
    (c1 c2 : List (String × FParams)) (img : Image) :
    apply_filters stop (c1 ++ c2) img =
      (apply_filters stop c1 img).bind (apply_filters stop c2) := by
  induction c1 generalizing img with
  | nil => rfl
  | cons e rest ih =>
    obtain ⟨name, ps⟩ := e
    simp only [List.cons_append, apply_filters]
    by_cases hen : ps.enabled = true
    · simp only [if_pos hen]
      cases hf : filterFor name with
      | none => exact ih img
      | some f =>
        by_cases hs : stop = true
        · simp only [if_pos hs]
          exact ih img
        · simp only [if_neg hs]
          cases hr : f ps img with
          | ok img2 => exact ih img2
          | error err => rfl
    · simp only [if_neg hen]
      exact ih img

/-- C8 counterexample: apply_grayscale hands back the single-channel
cvtColor result without re-expanding it, so on a 3-channel input the
returned buffer has 1 channel, not the input's channel count. -/
theorem apply_grayscale_channel_count_cex :
    apply_grayscale imgC8 = .ok grayC8 ∧ imgC8.channels = 3 ∧
      grayC8.channels = 1 ∧ grayC8.channels ≠ imgC8.channels :=
  ⟨rfl, rfl, rfl, by decide⟩

/-- C8 amended: on a 3-channel input the grayscale stage collapses the
buffer to single-channel luminance and returns it as such (same width and
height, channel count 1); no re-expansion to the working channel count
happens in this stage. -/
theorem apply_grayscale_single_channel (img : Image) (h : img.channels = 3) :
    ∃ out, apply_grayscale img = .ok out ∧ out.channels = 1 ∧
      out.width = img.width ∧ out.height = img.height := by
  refine ⟨⟨img.width, img.height, 1,
    .op1 (String.append "cvtColor." "BGR2GRAY") [] img.content⟩, ?_, rfl, rfl, rfl⟩
  simp [apply_grayscale, cvtColor, h]

theorem apply_grayscale_single_channel_witness :
    imgC8.channels = 3 ∧
      ∃ out, apply_grayscale imgC8 = .ok out ∧ out.channels = 1 ∧
        out.width = imgC8.width ∧ out.height = imgC8.height :=
  ⟨rfl, apply_grayscale_single_channel imgC8 rfl⟩

/-- C4 counterexample: at original size 49 x 49 with FixedWidth(8), the
exact aspect-ratio height is floor(49 * 8 / 49) = 8, but the source
computes int(49 * (8 / 49)) through binary64 floats: 8/49 rounds down, the
product lands just below 8, and int() truncates to 7 — the claimed exact
integer-rational floor does not hold. -/
theorem calculate_new_size_fp_fixed_width_cex :
    calculate_new_size_fp (49, 49) ⟨some 8, none, none⟩ = .ok (8, 7) ∧
      max 1 ⌊(49 : ℚ) * 8 / 49⌋ = 8 := by
  constructor
  · simp only [calculate_new_size_fp, truthyInt, truthyQ, Option.getD]
    norm_num [fdiv_8_49, fmul_49_ratio, pyInt_height_49]
  · norm_num

/-- C4 amended: under the FixedWidth(w) policy the resolved width equals w
exactly and the resolved height is at least 1, but the height is the
binary64 evaluation int(orig_h * fl(w / orig_w)), which can fall one below
the exact floor(orig_h * w / orig_w) (the counterexample); when orig_w
divides w and the exact product stays below 2^53 the float detour is exact
and the height equals the claimed clamped floor. -/
theorem calculate_new_size_fp_fixed_width (ow oh w : ℤ)
    (how : 1 ≤ ow) (hoh : 1 ≤ oh) (hw : 0 < w) :
    ∃ hgt : ℤ,
      calculate_new_size_fp (ow, oh) ⟨some w, none, none⟩ = .ok (w, hgt) ∧ 1 ≤ hgt ∧
        (ow ∣ w → w < 2^53 → oh * (w / ow) < 2^53 →
          hgt = max 1 ⌊(oh : ℚ) * w / ow⌋) := by
  refine ⟨max 1 (pyInt (fmul (oh:ℚ) (fdiv (w:ℚ) (ow:ℚ)))), ?_, le_max_left _ _, ?_⟩
  · have hw0 : w ≠ 0 := hw.ne'
    simp [calculate_new_size_fp, truthyInt, truthyQ, hw0,
      max_eq_right (show (1:ℤ) ≤ w by omega)]
  · intro hdvd hw53 hp53
    have h53 : (2:ℤ)^53 = 9007199254740992 := by norm_num
    have h53n : (2:ℕ)^53 = 9007199254740992 := by norm_num
    rw [h53] at hw53 hp53
    set q : ℤ := w / ow with hqdef
    have hq1 : q * ow = w := Int.ediv_mul_cancel hdvd
    have hqpos : 0 < q := by
      by_contra hc
      push_neg at hc
      have : q * ow ≤ 0 := mul_nonpos_of_nonpos_of_nonneg hc (by omega)
      omega
    have hqw : q ≤ w := Int.ediv_le_self _ (by omega)
    have hown : ((ow:ℚ)) ≠ 0 := by
      exact_mod_cast (show ow ≠ 0 by omega)
    have hcast : (w:ℚ) / (ow:ℚ) = (q:ℚ) := by
      rw [div_eq_iff hown]
      exact_mod_cast hq1.symm
    have hfd : fdiv (w:ℚ) (ow:ℚ) = (q:ℚ) := by
      unfold fdiv
      rw [hcast]
      have hqt : ((q.toNat : ℕ) : ℚ) = (q:ℚ) := by
        exact_mod_cast congrArg (Int.cast : ℤ → ℚ) (Int.toNat_of_nonneg hqpos.le)
      rw [← hqt, fl_natCast q.toNat (by rw [h53n]; omega), hqt]
    have hoq : 0 ≤ oh * q := mul_nonneg (by omega) hqpos.le
    have hprodc : (oh:ℚ) * (q:ℚ) = (((oh * q).toNat : ℕ) : ℚ) := by
      have h := congrArg (Int.cast : ℤ → ℚ) (Int.toNat_of_nonneg hoq)
      rw [Int.cast_natCast] at h
      rw [h]
      push_cast
      ring
    have hfm : fmul (oh:ℚ) (q:ℚ) = ((oh * q : ℤ) : ℚ) := by
      unfold fmul
      rw [hprodc, fl_natCast _ (by rw [h53n]; omega), ← hprodc]
      push_cast
      ring
    rw [hfd, hfm, pyInt_eq_floor_of_nonneg _ (by exact_mod_cast hoq), Int.floor_intCast]
    congr 1
    rw [mul_div_assoc, hcast,
      show (oh:ℚ) * (q:ℚ) = ((oh * q : ℤ) : ℚ) by push_cast; ring, Int.floor_intCast]

theorem calculate_new_size_fp_fixed_width_witness :
    (1:ℤ) ≤ 7 ∧ (1:ℤ) ≤ 5 ∧ (0:ℤ) < 14 ∧
      (∃ hgt : ℤ,
        calculate_new_size_fp (7, 5) ⟨some 14, none, none⟩ = .ok (14, hgt) ∧ 1 ≤ hgt ∧
          ((7:ℤ) ∣ 14 → (14:ℤ) < 2^53 → (5:ℤ) * (14 / 7) < 2^53 →
            hgt = max 1 ⌊(5 : ℚ) * 14 / 7⌋)) :=
  ⟨by norm_num, by norm_num, by norm_num,
    calculate_new_size_fp_fixed_width 7 5 14 (by norm_num) (by norm_num) (by norm_num)⟩

end ImageResizer
